import Mathlib

/-!
Verification of the token-attribute pattern-matching engine described by the
repository (spaCy-course notebooks).  The notebooks call the external
library's `Matcher`; the matcher itself is therefore modelled from the
specification's description, while concrete cells and their recorded
outputs (pattern definitions, match tuples, hash values, slices) are
embedded directly from the notebook source.
-/

namespace NlpSpacy

/-- A constraint value: either an exact string or a boolean flag
(the notebooks use e.g. `IS_DIGIT: True`). -/
inductive Value where
  | str (s : String)
  | boolean (b : Bool)
deriving DecidableEq, Repr

/-- Modelled from the spec: the closed enumeration of supported token
attributes (`text`, `lower`, `isAlpha`, `isPunct`, `isDigit`, `lemma`,
`pos`).  The `lemma` attribute is spelled `lemm` because `lemma` is a
reserved word in Lean. -/
inductive Attr where
  | text
  | lower
  | lemm
  | pos
  | isAlpha
  | isPunct
  | isDigit
deriving DecidableEq, Repr

/-- Modelled from the spec: an immutable token.  `text` is the surface
string; `lemm` (the `lemma` attribute) and `pos` are supplied by an
external annotator and may be absent; the remaining attributes are
derived from `text`. -/
structure Token where
  text : String
  lemm : Option String
  pos : Option String
deriving DecidableEq, Repr

/-- Punctuation characters, for the derived `isPunct` predicate. -/
def isPunctChar (c : Char) : Bool :=
  ".,!?;:".contains c

/-- Modelled from the spec: total attribute extraction `Token -> Value`,
returning `none` when the attribute is absent on the token. -/
def getAttr (t : Token) : Attr → Option Value
  | .text => some (.str t.text)
  | .lower => some (.str t.text.toLower)
  | .lemm => t.lemm.map .str
  | .pos => t.pos.map .str
  | .isAlpha => some (.boolean (!t.text.isEmpty && t.text.all Char.isAlpha))
  | .isPunct => some (.boolean (!t.text.isEmpty && t.text.all isPunctChar))
  | .isDigit => some (.boolean (!t.text.isEmpty && t.text.all Char.isDigit))

/-- Modelled from the spec: a token satisfies an `AttributeConstraint`
set only if every named attribute matches exactly; an absent attribute
never matches. -/
def satisfies (t : Token) (c : List (Attr × Value)) : Bool :=
  c.all fun av => decide (getAttr t av.1 = some av.2)

/-- Modelled from the spec: the closed set of quantifiers
`none / '?' / '*' / '+' / '!'`. -/
inductive Quant where
  | one
  | opt
  | star
  | plus
  | neg
deriving DecidableEq, Repr

/-- One pattern step: an attribute-constraint set plus a quantifier. -/
structure PatternStep where
  attrs : List (Attr × Value)
  quant : Quant
deriving DecidableEq, Repr

/-- Modelled from the spec: greedy-with-backtracking consumption of a
pattern against a token suffix, returning the number of tokens consumed
by the first successful expansion (longest-first policy), or `none`.
`fuel` strictly exceeds the recursion depth whenever the caller supplies
`steps.length + toks.length + 1` (every recursive call decreases
`steps.length + toks.length`). -/
def tryMatchF : Nat → List PatternStep → List Token → Option Nat
  | 0, _, _ => none
  | _ + 1, [], _ => some 0
  | fuel + 1, step :: rest, toks =>
    match step.quant, toks with
    | .one, [] => none
    | .one, t :: ts =>
      if satisfies t step.attrs then (tryMatchF fuel rest ts).map (· + 1) else none
    | .opt, [] => tryMatchF fuel rest []
    | .opt, t :: ts =>
      if satisfies t step.attrs then
        match tryMatchF fuel rest ts with
        | some n => some (n + 1)
        | none => tryMatchF fuel rest (t :: ts)
      else tryMatchF fuel rest (t :: ts)
    | .star, [] => tryMatchF fuel rest []
    | .star, t :: ts =>
      if satisfies t step.attrs then
        match tryMatchF fuel (step :: rest) ts with
        | some n => some (n + 1)
        | none => tryMatchF fuel rest (t :: ts)
      else tryMatchF fuel rest (t :: ts)
    | .plus, [] => none
    | .plus, t :: ts =>
      if satisfies t step.attrs then
        (tryMatchF fuel (⟨step.attrs, .star⟩ :: rest) ts).map (· + 1)
      else none
    | .neg, [] => none
    | .neg, t :: ts =>
      if satisfies t step.attrs then none else tryMatchF fuel rest (t :: ts)

/-- Attempt one pattern on a token suffix with sufficient fuel. -/
def tryMatch (steps : List PatternStep) (toks : List Token) : Option Nat :=
  tryMatchF (steps.length + toks.length + 1) steps toks

/-- A match result.  The notebooks call the third component `end`
(exclusive end index); that word is reserved in Lean, so the field is
named `stop`. -/
structure Match where
  matchId : Nat
  start : Nat
  stop : Nat
deriving DecidableEq, Repr

/-- Modelled from the spec: the shared vocabulary interns strings to
64-bit hash IDs; the matcher only requires a deterministic integer hash
of the rule name, embedded here as a 64-bit polynomial string hash. -/
def strHash (s : String) : Nat :=
  s.data.foldl (fun h c => (h * 31 + c.toNat) % (2 ^ 64)) 5381

/-- One registry entry: a rule name together with its alternative
patterns (logical OR). -/
structure RuleEntry where
  name : String
  patterns : List (List PatternStep)
deriving DecidableEq, Repr

/-- The pattern registry of a matcher instance. -/
abbrev Registry := List RuleEntry

/-- All matches one rule entry produces at start position `s`: one match
per pattern, spanning `s` to `s` plus the consumed count, carrying the
hash of the rule name. -/
def matchesAt (e : RuleEntry) (toks : List Token) (s : Nat) : List Match :=
  e.patterns.filterMap fun p =>
    (tryMatch p (List.drop s toks)).map fun n => ⟨strHash e.name, s, s + n⟩

/-- Modelled from the spec: `match` scans every start position in
`[0, length)` left to right and, per start, every registered rule and
pattern. -/
def matchAll (reg : Registry) (toks : List Token) : List Match :=
  (List.range toks.length).flatMap fun s => reg.flatMap fun e => matchesAt e toks s

/-- A raw (uncompiled) pattern step as written in the notebooks: string
attribute keys plus an optional `OP` quantifier string. -/
structure RawStep where
  attrs : List (String × Value)
  op : Option String
deriving DecidableEq, Repr

/-- Modelled from the spec: the supported attribute key names (the
notebooks use `TEXT`, `LOWER`, `LEMMA`, `POS`, `IS_ALPHA`, `IS_PUNCT`,
`IS_DIGIT`); any other key is unsupported. -/
def attrOfName : String → Option Attr
  | "TEXT" => some .text
  | "LOWER" => some .lower
  | "LEMMA" => some .lemm
  | "POS" => some .pos
  | "IS_ALPHA" => some .isAlpha
  | "IS_PUNCT" => some .isPunct
  | "IS_DIGIT" => some .isDigit
  | _ => none

/-- Modelled from the spec: the five recognized quantifier forms; a
missing `OP` key means exactly once, any other symbol is unrecognized. -/
def quantOfOp : Option String → Option Quant
  | none => some .one
  | some "?" => some .opt
  | some "*" => some .star
  | some "+" => some .plus
  | some "!" => some .neg
  | some _ => none

/-- Compile raw attribute keys to the closed attribute enumeration;
`none` on the first unsupported key. -/
def compileAttrs : List (String × Value) → Option (List (Attr × Value))
  | [] => some []
  | kv :: rest =>
    match attrOfName kv.1, compileAttrs rest with
    | some a, some cs => some ((a, kv.2) :: cs)
    | _, _ => none

/-- Compile a raw step; `none` if an attribute key is unsupported or the
quantifier symbol is unrecognized. -/
def compileStep (s : RawStep) : Option PatternStep :=
  match compileAttrs s.attrs, quantOfOp s.op with
  | some a, some q => some ⟨a, q⟩
  | _, _ => none

/-- Compile one raw pattern step by step. -/
def compilePattern : List RawStep → Option (List PatternStep)
  | [] => some []
  | s :: rest =>
    match compileStep s, compilePattern rest with
    | some c, some cs => some (c :: cs)
    | _, _ => none

/-- Compile a list of alternative raw patterns. -/
def compilePatterns : List (List RawStep) → Option (List (List PatternStep))
  | [] => some []
  | p :: rest =>
    match compilePattern p, compilePatterns rest with
    | some c, some cs => some (c :: cs)
    | _, _ => none

/-- The registration-time error, carrying the rule name for context. -/
structure ConfigurationError where
  ruleName : String
  message : String
deriving DecidableEq, Repr

/-- Append alternative patterns for a rule name (OR semantics: a second
registration under the same name appends rather than overwrites). -/
def addPatterns : Registry → String → List (List PatternStep) → Registry
  | [], name, cps => [⟨name, cps⟩]
  | e :: es, name, cps =>
    if e.name = name then ⟨e.name, e.patterns ++ cps⟩ :: es
    else e :: addPatterns es name cps

/-- Modelled from the spec: `register(ruleId, patterns)` validates every
step of every pattern and either extends the registry or reports a
`ConfigurationError`; acceptance is all-or-nothing. -/
def register (reg : Registry) (name : String) (ps : List (List RawStep)) :
    Except ConfigurationError Registry :=
  match compilePatterns ps with
  | some cps => .ok (addPatterns reg name cps)
  | none => .error ⟨name, "unsupported attribute name or unrecognized quantifier"⟩

/-- Modelled from the spec: the stateful view of a failing `register`
call — when a `ConfigurationError` is raised the matcher keeps its
previous registry. -/
def tryRegister (reg : Registry) (name : String) (ps : List (List RawStep)) :
    Registry × Option ConfigurationError :=
  match register reg name ps with
  | .ok r => (r, none)
  | .error e => (reg, some e)

/-- Modelled from the spec: a matcher instance holds only the immutable
pattern registry; there is no hidden mutable state. -/
structure MatcherState where
  registry : Registry
deriving DecidableEq, Repr

/-- Modelled from the spec: one `matcher(doc)` call, returning the match
list together with the instance state after the call. -/
def callMatcher (m : MatcherState) (toks : List Token) : MatcherState × List Match :=
  (m, matchAll m.registry toks)

/-- Python-style slicing of a token sequence, as in the notebook cell
`span = doc[1:4]`: take up to the end bound, then drop the start bound,
truncating silently at the sequence length. -/
def sliceTokens (toks : List Token) (a b : Nat) : List Token :=
  (toks.take b).drop a

/-- A token carrying only its surface text, with no external annotations. -/
def tok (s : String) : Token := ⟨s, none, none⟩

/-- The constraint of the first `VERY_HAPPY` step (notebook: `TEXT: very`). -/
def veryC : List (Attr × Value) := [(.text, .str "very")]

/-- The constraint of the last `VERY_HAPPY` step (notebook: `TEXT: happy`). -/
def happyC : List (Attr × Value) := [(.text, .str "happy")]

/-- The notebook `VERY_HAPPY` pattern: one `'+'` step on `very` followed
by an unquantified step on `happy`. -/
def veryHappyPattern : List PatternStep := [⟨veryC, .plus⟩, ⟨happyC, .one⟩]

/-- The `VERY_HAPPY` pattern after its `'+'` step has consumed its
mandatory first token and continues as `'*'`. -/
def veryStarHappy : List PatternStep := [⟨veryC, .star⟩, ⟨happyC, .one⟩]

/-- A registry holding the notebook `VERY_HAPPY` rule. -/
def vhReg : Registry := [⟨"VERY_HAPPY", [veryHappyPattern]⟩]

/-- The 3-token sequence `very very happy`. -/
def veryVeryHappyDoc : List Token := [tok "very", tok "very", tok "happy"]

/-- A 2-token sequence with zero `very` tokens and a `happy` token. -/
def soHappyDoc : List Token := [tok "so", tok "happy"]

/-- The notebook `OPE_QUANT` pattern:
`LEMMA: buy`, then `POS: DET` with `OP: ?`, then `POS: NOUN`. -/
def opeQuantPattern : List PatternStep :=
  [⟨[(.lemm, .str "buy")], .one⟩, ⟨[(.pos, .str "DET")], .opt⟩,
   ⟨[(.pos, .str "NOUN")], .one⟩]

/-- A registry holding the notebook `OPE_QUANT` rule. -/
def opeReg : Registry := [⟨"OPE_QUANT", [opeQuantPattern]⟩]

/-- The annotated 3-token sequence `bought a smartphone` (determiner
present), as the external pipeline annotates it. -/
def boughtDoc : List Token :=
  [⟨"bought", some "buy", some "VERB"⟩, ⟨"a", some "a", some "DET"⟩,
   ⟨"smartphone", some "smartphone", some "NOUN"⟩]

/-- The annotated 2-token sequence `buying apps` (determiner absent). -/
def buyingDoc : List Token :=
  [⟨"buying", some "buy", some "VERB"⟩, ⟨"apps", some "app", some "NOUN"⟩]

/-- A registry with one rule whose single pattern is one `'!'` step on
`POS: VERB`: every step of the pattern is zero-consumption. -/
def notVerbReg : Registry := [⟨"NOT_VERB", [[⟨[(.pos, .str "VERB")], .neg⟩]]⟩]

/-- A 1-token sequence whose token is not a verb. -/
def catsDoc : List Token := [⟨"cats", none, some "NOUN"⟩]

/-- The match list recorded in the chapter-2 recap cell:
`[(9137535031263442622, 1, 3), (2447047934687575526, 7, 9), (2447047934687575526, 6, 9)]`
for rules `LOVE_CATS` (first id) and `VERY_HAPPY` (second id) on the doc
`I love cats and Im very very happy`. -/
def recapMatches : List Match :=
  [⟨9137535031263442622, 1, 3⟩, ⟨2447047934687575526, 7, 9⟩,
   ⟨2447047934687575526, 6, 9⟩]

/-- The ordering the specification asserts: primary `start` ascending,
secondary `stop` (exclusive end) ascending. -/
def startStopLE (m1 m2 : Match) : Bool :=
  Nat.blt m1.start m2.start || (m1.start == m2.start && Nat.ble m1.stop m2.stop)

/-- Comparison on the exclusive end index only. -/
def stopLE (m1 m2 : Match) : Bool := Nat.ble m1.stop m2.stop

/-- A match list is sorted under a comparison when every adjacent pair is. -/
def sortedBy (r : Match → Match → Bool) : List Match → Bool
  | [] => true
  | [_] => true
  | m1 :: m2 :: ms => r m1 m2 && sortedBy r (m2 :: ms)

/-- The 3-token doc of the notebook slicing cell: `Hello`, `world`, `!`. -/
def helloDoc : List Token := [tok "Hello", tok "world", tok "!"]

/-- Whether a registration attempt reported a `ConfigurationError`. -/
def isError : Except ConfigurationError Registry → Bool
  | .ok _ => false
  | .error _ => true

/-- The malformed registration of the spec: a pattern containing a step
whose quantifier symbol is `'%'`. -/
def badRaw : List (List RawStep) := [[⟨[], some "%"⟩]]

end NlpSpacy

namespace NlpSpacy

/-- C1 counterexample: the match list the repository records for the
chapter-2 recap cell is NOT sorted primarily by start ascending and
secondarily by end ascending — the match (2447047934687575526, 7, 9)
precedes (2447047934687575526, 6, 9), a smaller start. -/
theorem recap_matches_not_sorted_by_start :
    sortedBy startStopLE recapMatches = false := by decide

/-- C1 (amended): the recorded match list is ordered by exclusive end
index ascending (nondecreasing), matching the scan completing matches
left to right; it is not sorted primarily by start. -/
theorem recap_matches_sorted_by_stop :
    sortedBy stopLE recapMatches = true := by decide

/-- C3: the `'?'` step consumes the determiner when present and zero
tokens otherwise: the `OPE_QUANT` rule matches `bought a smartphone` as
exactly the span (0,3) and `buying apps` as exactly the span (0,2). -/
theorem opt_quantifier_spans :
    matchAll opeReg boughtDoc = [⟨strHash "OPE_QUANT", 0, 3⟩] ∧
      matchAll opeReg buyingDoc = [⟨strHash "OPE_QUANT", 0, 2⟩] := by decide

/-- C4 counterexample: a pattern whose only step carries the
zero-consumption quantifier `'!'` yields a match with start = end = 0
on a 1-token non-verb sequence, so a Match with start equal to end IS
returned, contradicting the claimed strict invariant. -/
theorem zero_width_match_cex :
    matchAll notVerbReg catsDoc = [⟨strHash "NOT_VERB", 0, 0⟩] ∧
      ((matchAll notVerbReg catsDoc).all fun m => decide (m.start < m.stop))
        = false := by decide

/-- C8: matching is deterministic and stateless — a `matcher(doc)` call
leaves the matcher state unchanged, and a second call on the resulting
state returns the identical ordered match list. -/
theorem match_idempotent_stateless (m : MatcherState) (toks : List Token) :
    (callMatcher m toks).1 = m ∧
      (callMatcher (callMatcher m toks).1 toks).2 = (callMatcher m toks).2 :=
  ⟨rfl, rfl⟩

/-- C10: slicing a 3-token sequence as `[1:4]` truncates at the sequence
end rather than failing, yielding exactly the tokens at positions 1
and 2 (the whole tail after position 0). -/
theorem slice_truncates_at_length (toks : List Token) (h : toks.length = 3) :
    sliceTokens toks 1 4 = toks.drop 1 := by
  unfold sliceTokens
  rw [List.take_of_length_le (by omega)]

/-- C10 witness: the notebook doc `Hello world !` sliced as `[1:4]`. -/
theorem slice_truncates_at_length_witness :
    sliceTokens helloDoc 1 4 = helloDoc.drop 1 :=
  slice_truncates_at_length helloDoc (by decide)

/-- The fuel argument is irrelevant once it strictly exceeds
`steps.length + toks.length` (every recursive call decreases that sum). -/
theorem tryMatchF_congr :
    ∀ f1 f2 : Nat, ∀ steps : List PatternStep, ∀ toks : List Token,
      steps.length + toks.length < f1 → steps.length + toks.length < f2 →
      tryMatchF f1 steps toks = tryMatchF f2 steps toks := by
  intro f1
  induction f1 with
  | zero => intro f2 steps toks h1 _; exact absurd h1 (Nat.not_lt_zero _)
  | succ n ih =>
    intro f2 steps toks h1 h2
    obtain ⟨m, rfl⟩ : ∃ m, f2 = m + 1 := ⟨f2 - 1, by omega⟩
    obtain _ | ⟨⟨ac, q⟩, rest⟩ := steps
    · rfl
    · simp only [List.length_cons] at h1 h2
      cases q
      case one =>
        cases toks with
        | nil => rfl
        | cons t ts =>
          simp only [List.length_cons] at h1 h2
          simp only [tryMatchF]
          rw [ih m rest ts (by omega) (by omega)]
      case opt =>
        cases toks with
        | nil =>
          simp only [tryMatchF]
          exact ih m rest [] (by simp only [List.length_nil] at h1 ⊢; omega)
            (by simp only [List.length_nil] at h2 ⊢; omega)
        | cons t ts =>
          simp only [List.length_cons] at h1 h2
          simp only [tryMatchF]
          rw [ih m rest ts (by omega) (by omega),
            ih m rest (t :: ts) (by simp only [List.length_cons]; omega)
              (by simp only [List.length_cons]; omega)]
      case star =>
        cases toks with
        | nil =>
          simp only [tryMatchF]
          exact ih m rest [] (by simp only [List.length_nil] at h1 ⊢; omega)
            (by simp only [List.length_nil] at h2 ⊢; omega)
        | cons t ts =>
          simp only [List.length_cons] at h1 h2
          simp only [tryMatchF]
          rw [ih m (⟨ac, .star⟩ :: rest) ts
              (by simp only [List.length_cons]; omega)
              (by simp only [List.length_cons]; omega),
            ih m rest (t :: ts) (by simp only [List.length_cons]; omega)
              (by simp only [List.length_cons]; omega)]
      case plus =>
        cases toks with
        | nil => rfl
        | cons t ts =>
          simp only [List.length_cons] at h1 h2
          simp only [tryMatchF]
          rw [ih m (⟨ac, .star⟩ :: rest) ts
            (by simp only [List.length_cons]; omega)
            (by simp only [List.length_cons]; omega)]
      case neg =>
        cases toks with
        | nil => rfl
        | cons t ts =>
          simp only [List.length_cons] at h1 h2
          simp only [tryMatchF]
          rw [ih m rest (t :: ts) (by simp only [List.length_cons]; omega)
            (by simp only [List.length_cons]; omega)]

/-- A successful pattern attempt never consumes more tokens than the
suffix holds. -/
theorem tryMatchF_le :
    ∀ fuel : Nat, ∀ steps : List PatternStep, ∀ toks : List Token, ∀ k : Nat,
      tryMatchF fuel steps toks = some k → k ≤ toks.length := by
  intro fuel
  induction fuel with
  | zero => intro steps toks k h; exact absurd h (by simp [tryMatchF])
  | succ f ih =>
    intro steps toks k h
    obtain _ | ⟨⟨ac, q⟩, rest⟩ := steps
    · simp only [tryMatchF, Option.some.injEq] at h
      omega
    · cases q
      case one =>
        cases toks with
        | nil => simp [tryMatchF] at h
        | cons t ts =>
          simp only [tryMatchF] at h
          by_cases hs : satisfies t ac = true
          · rw [if_pos hs, Option.map_eq_some'] at h
            obtain ⟨k', hk', rfl⟩ := h
            have := ih rest ts k' hk'
            simp only [List.length_cons]
            omega
          · rw [if_neg hs] at h
            exact absurd h (by simp)
      case opt =>
        cases toks with
        | nil => exact ih rest [] k (by simpa [tryMatchF] using h)
        | cons t ts =>
          simp only [tryMatchF] at h
          by_cases hs : satisfies t ac = true
          · rw [if_pos hs] at h
            rcases hrec : tryMatchF f rest ts with _ | k'
            · rw [hrec] at h
              exact ih rest (t :: ts) k h
            · rw [hrec] at h
              simp only [Option.some.injEq] at h
              have := ih rest ts k' hrec
              simp only [List.length_cons]
              omega
          · rw [if_neg hs] at h
            exact ih rest (t :: ts) k h
      case star =>
        cases toks with
        | nil => exact ih rest [] k (by simpa [tryMatchF] using h)
        | cons t ts =>
          simp only [tryMatchF] at h
          by_cases hs : satisfies t ac = true
          · rw [if_pos hs] at h
            rcases hrec : tryMatchF f (⟨ac, .star⟩ :: rest) ts with _ | k'
            · rw [hrec] at h
              exact ih rest (t :: ts) k h
            · rw [hrec] at h
              simp only [Option.some.injEq] at h
              have := ih (⟨ac, .star⟩ :: rest) ts k' hrec
              simp only [List.length_cons]
              omega
          · rw [if_neg hs] at h
            exact ih rest (t :: ts) k h
      case plus =>
        cases toks with
        | nil => simp [tryMatchF] at h
        | cons t ts =>
          simp only [tryMatchF] at h
          by_cases hs : satisfies t ac = true
          · rw [if_pos hs, Option.map_eq_some'] at h
            obtain ⟨k', hk', rfl⟩ := h
            have := ih (⟨ac, .star⟩ :: rest) ts k' hk'
            simp only [List.length_cons]
            omega
          · rw [if_neg hs] at h
            exact absurd h (by simp)
      case neg =>
        cases toks with
        | nil => simp [tryMatchF] at h
        | cons t ts =>
          simp only [tryMatchF] at h
          by_cases hs : satisfies t ac = true
          · rw [if_pos hs] at h
            exact absurd h (by simp)
          · rw [if_neg hs] at h
            exact ih rest (t :: ts) k h

/-- C7: a `'!'` step succeeds exactly when the token at the cursor does
not satisfy its constraint and then consumes zero tokens (the rest of
the pattern continues at the same cursor); an absent attribute counts as
not satisfying the constraint. -/
theorem neg_quantifier_semantics (c : List (Attr × Value)) (rest : List PatternStep)
    (t : Token) (ts : List Token) (a : Attr) (v : Value) :
    tryMatch (⟨c, .neg⟩ :: rest) (t :: ts) =
      (if satisfies t c then none else tryMatch rest (t :: ts)) ∧
      (getAttr t a = none → satisfies t ((a, v) :: c) = false) := by
  constructor
  · have e1 : tryMatch (⟨c, Quant.neg⟩ :: rest) (t :: ts) =
        (if satisfies t c then none
         else tryMatchF ((⟨c, Quant.neg⟩ :: rest).length + (t :: ts).length) rest
            (t :: ts)) := rfl
    rw [e1]
    by_cases hs : satisfies t c = true
    · rw [if_pos hs, if_pos hs]
    · rw [if_neg hs, if_neg hs]
      exact tryMatchF_congr _ _ rest (t :: ts)
        (by simp only [List.length_cons]; omega)
        (by simp only [List.length_cons]; omega)
  · intro h
    simp [satisfies, h]

/-- C7 witness: the `'!'` step on `POS: VERB` applied to a token with no
`pos` annotation succeeds without advancing (absent attribute counts as
not satisfying). -/
theorem neg_quantifier_semantics_witness :
    tryMatch [⟨[(Attr.pos, Value.str "VERB")], Quant.neg⟩] [tok "cats"] =
      (if satisfies (tok "cats") [(Attr.pos, Value.str "VERB")] then none
       else tryMatch [] [tok "cats"]) ∧
      satisfies (tok "cats") [(Attr.pos, Value.str "VERB")] = false :=
  ⟨(neg_quantifier_semantics [(Attr.pos, Value.str "VERB")] [] (tok "cats") []
      Attr.pos (Value.str "VERB")).1,
   (neg_quantifier_semantics [] [] (tok "cats") [] Attr.pos (Value.str "VERB")).2 rfl⟩

/-- C4 (amended): every returned Match satisfies
`0 <= start <= end <= length` with `start < length`; the strict
`start < end` of the original claim fails for patterns all of whose
steps carry zero-consumption quantifiers (see the counterexample). -/
theorem match_bounds_amended (reg : Registry) (toks : List Token) (m : Match)
    (h : m ∈ matchAll reg toks) :
    m.start < toks.length ∧ m.start ≤ m.stop ∧ m.stop ≤ toks.length := by
  simp only [matchAll, List.mem_flatMap, List.mem_range] at h
  obtain ⟨s, hs, e, _, hm⟩ := h
  simp only [matchesAt, List.mem_filterMap, Option.map_eq_some'] at hm
  obtain ⟨p, _, k, hk, rfl⟩ := hm
  have hle : k ≤ (List.drop s toks).length := tryMatchF_le _ p (List.drop s toks) k hk
  rw [List.length_drop] at hle
  exact ⟨hs, show s ≤ s + k by omega, show s + k ≤ toks.length by omega⟩

/-- C4 witness: the bounds at the `VERY_HAPPY` match (0,3) on the
3-token doc `very very happy`. -/
theorem match_bounds_amended_witness :
    (⟨strHash "VERY_HAPPY", 0, 3⟩ : Match).start < veryVeryHappyDoc.length ∧
      (⟨strHash "VERY_HAPPY", 0, 3⟩ : Match).start ≤
        (⟨strHash "VERY_HAPPY", 0, 3⟩ : Match).stop ∧
      (⟨strHash "VERY_HAPPY", 0, 3⟩ : Match).stop ≤ veryVeryHappyDoc.length :=
  match_bounds_amended vhReg veryVeryHappyDoc ⟨strHash "VERY_HAPPY", 0, 3⟩ (by decide)

/-- C9: the identifier carried by every returned Match is the hash value
of a registered rule name (the integer the shared vocabulary interns the
name string to), so all matches of patterns registered under one name
carry the same identifier. -/
theorem match_id_is_name_hash (reg : Registry) (toks : List Token) (m : Match)
    (h : m ∈ matchAll reg toks) :
    ∃ e ∈ reg, m.matchId = strHash e.name := by
  simp only [matchAll, List.mem_flatMap, List.mem_range] at h
  obtain ⟨s, _, e, he, hm⟩ := h
  simp only [matchesAt, List.mem_filterMap, Option.map_eq_some'] at hm
  obtain ⟨p, _, k, _, rfl⟩ := hm
  exact ⟨e, he, rfl⟩

/-- C9 witness: the (0,3) match of `VERY_HAPPY` on `very very happy`
carries the hash of the rule name `VERY_HAPPY`. -/
theorem match_id_is_name_hash_witness :
    (⟨strHash "VERY_HAPPY", 0, 3⟩ : Match).matchId = strHash "VERY_HAPPY" := by
  obtain ⟨e, he, hid⟩ := match_id_is_name_hash vhReg veryVeryHappyDoc
    ⟨strHash "VERY_HAPPY", 0, 3⟩ (by decide)
  rw [hid]
  simp only [vhReg, List.mem_singleton] at he
  rw [he]

/-- A token satisfies the `very` constraint exactly when its text is
`very`. -/
theorem satisfies_veryC (t : Token) : satisfies t veryC = true ↔ t.text = "very" := by
  simp [satisfies, veryC, getAttr]

/-- A token satisfies the `happy` constraint exactly when its text is
`happy`. -/
theorem satisfies_happyC (t : Token) :
    satisfies t happyC = true ↔ t.text = "happy" := by
  simp [satisfies, happyC, getAttr]

/-- The lone `happy` step yields nothing on an empty suffix. -/
theorem happyOne_nil (f : Nat) : tryMatchF f [⟨happyC, .one⟩] [] = none := by
  cases f with
  | zero => rfl
  | succ f => rfl

/-- The lone `happy` step succeeds on a suffix only if its first token
reads `happy`. -/
theorem happyOne_success (f : Nat) (u : Token) (us : List Token) (k : Nat)
    (h : tryMatchF f [⟨happyC, .one⟩] (u :: us) = some k) : u.text = "happy" := by
  cases f with
  | zero => exact absurd h (by simp [tryMatchF])
  | succ f =>
    simp only [tryMatchF] at h
    by_cases hs : satisfies u happyC = true
    · exact (satisfies_happyC u).mp hs
    · rw [if_neg hs] at h
      exact absurd h (by simp)

/-- A successful `very* happy` attempt means the suffix either starts
with `happy` or holds a `very` token immediately followed by `happy`. -/
theorem veryStarHappy_success :
    ∀ fuel : Nat, ∀ ts : List Token, ∀ k : Nat,
      tryMatchF fuel veryStarHappy ts = some k →
      (∃ u, ts[0]? = some u ∧ u.text = "happy") ∨
        ∃ j t u, ts[j]? = some t ∧ t.text = "very" ∧ ts[j + 1]? = some u ∧
          u.text = "happy" := by
  intro fuel
  induction fuel with
  | zero => intro ts k h; exact absurd h (by simp [tryMatchF])
  | succ f ih =>
    intro ts k h
    cases ts with
    | nil =>
      rw [show tryMatchF (f + 1) veryStarHappy [] = tryMatchF f [⟨happyC, .one⟩] []
          from rfl, happyOne_nil] at h
      exact absurd h (by simp)
    | cons t ts =>
      rw [show tryMatchF (f + 1) veryStarHappy (t :: ts) =
          (if satisfies t veryC then
            match tryMatchF f veryStarHappy ts with
            | some n => some (n + 1)
            | none => tryMatchF f [⟨happyC, .one⟩] (t :: ts)
          else tryMatchF f [⟨happyC, .one⟩] (t :: ts)) from rfl] at h
      by_cases hs : satisfies t veryC = true
      · rw [if_pos hs] at h
        rcases hrec : tryMatchF f veryStarHappy ts with _ | k'
        · rw [hrec] at h
          exact Or.inl ⟨t, by simp, happyOne_success f t ts k h⟩
        · rcases ih ts k' hrec with ⟨u, hu0, hut⟩ | ⟨j, t', u, hj, ht', hj1, hu⟩
          · exact Or.inr ⟨0, t, u, by simp, (satisfies_veryC t).mp hs,
              by simpa using hu0, hut⟩
          · exact Or.inr ⟨j + 1, t', u, by simpa using hj, ht',
              by simpa using hj1, hu⟩
      · rw [if_neg hs] at h
        exact Or.inl ⟨t, by simp, happyOne_success f t ts k h⟩

/-- A successful `VERY_HAPPY` attempt exhibits a `very` token immediately
followed by a `happy` token inside the suffix. -/
theorem veryHappyPattern_success (fuel : Nat) (ts : List Token) (k : Nat)
    (h : tryMatchF fuel veryHappyPattern ts = some k) :
    ∃ j t u, ts[j]? = some t ∧ t.text = "very" ∧ ts[j + 1]? = some u ∧
      u.text = "happy" := by
  cases fuel with
  | zero => exact absurd h (by simp [tryMatchF])
  | succ f =>
    cases ts with
    | nil =>
      rw [show tryMatchF (f + 1) veryHappyPattern [] = none from rfl] at h
      exact absurd h (by simp)
    | cons t ts =>
      rw [show tryMatchF (f + 1) veryHappyPattern (t :: ts) =
          (if satisfies t veryC then (tryMatchF f veryStarHappy ts).map (· + 1)
           else none) from rfl] at h
      by_cases hs : satisfies t veryC = true
      · rw [if_pos hs, Option.map_eq_some'] at h
        obtain ⟨k', hk', _⟩ := h
        rcases veryStarHappy_success f ts k' hk' with ⟨u, hu0, hut⟩ |
          ⟨j, t', u, hj, ht', hj1, hu⟩
        · exact ⟨0, t, u, by simp, (satisfies_veryC t).mp hs, by simpa using hu0, hut⟩
        · exact ⟨j + 1, t', u, by simpa using hj, ht', by simpa using hj1, hu⟩
      · rw [if_neg hs] at h
        exact absurd h (by simp)

/-- C2: the `'+'` quantifier requires at least one consumed token: on any
token sequence where no `very` token is immediately followed by a `happy`
token (in particular one with zero `very` tokens before its `happy`),
the `VERY_HAPPY` rule yields no match at all, while on the 3-token
`very very happy` it yields the match with start 0 and end 3. -/
theorem plus_quantifier_requires_one (toks : List Token)
    (h : ∀ i : Nat, ∀ t u : Token, toks[i]? = some t → toks[i + 1]? = some u →
      t.text = "very" → u.text ≠ "happy") :
    matchAll vhReg toks = [] ∧
      (⟨strHash "VERY_HAPPY", 0, 3⟩ : Match) ∈ matchAll vhReg veryVeryHappyDoc := by
  refine ⟨?_, by decide⟩
  rw [List.eq_nil_iff_forall_not_mem]
  intro m hm
  simp only [matchAll, List.mem_flatMap, List.mem_range] at hm
  obtain ⟨s, _, e, he, hmm⟩ := hm
  simp only [vhReg, List.mem_singleton] at he
  subst he
  simp only [matchesAt, List.mem_filterMap, Option.map_eq_some'] at hmm
  obtain ⟨p, hp, k, hk, _⟩ := hmm
  simp only [List.mem_singleton] at hp
  subst hp
  obtain ⟨j, t, u, hj, ht, hj1, hu⟩ := veryHappyPattern_success _ _ k hk
  rw [List.getElem?_drop] at hj hj1
  exact h (s + j) t u hj hj1 ht hu

/-- C2 witness: the 2-token doc `so happy` has no `very` before its
`happy`, so `VERY_HAPPY` yields nothing there, while `very very happy`
yields the (0,3) match. -/
theorem plus_quantifier_requires_one_witness :
    matchAll vhReg soHappyDoc = [] ∧
      (⟨strHash "VERY_HAPPY", 0, 3⟩ : Match) ∈ matchAll vhReg veryVeryHappyDoc :=
  plus_quantifier_requires_one soHappyDoc (by
    intro i t u h1 h2 h3
    rcases i with _ | _ | i
    · simp only [soHappyDoc, tok, List.getElem?_cons_zero, Option.some.injEq] at h1
      subst h1
      simp at h3
    · simp only [soHappyDoc, tok, List.getElem?_cons_succ, List.getElem?_cons_zero,
        Option.some.injEq] at h1
      subst h1
      simp at h3
    · simp [soHappyDoc] at h1)

/-- `compileAttrs` fails exactly when some key is unsupported. -/
theorem compileAttrs_eq_none :
    ∀ l : List (String × Value),
      compileAttrs l = none ↔ ∃ kv ∈ l, attrOfName kv.1 = none := by
  intro l
  induction l with
  | nil => simp [compileAttrs]
  | cons kv rest ih =>
    rcases ha : attrOfName kv.1 with _ | a
    · simp only [compileAttrs, ha]
      constructor
      · intro _
        exact ⟨kv, List.mem_cons_self kv rest, ha⟩
      · intro _
        trivial
    · rcases hr : compileAttrs rest with _ | cs
      · simp only [compileAttrs, ha, hr]
        constructor
        · intro _
          obtain ⟨kv', hkv', hn⟩ := ih.mp hr
          exact ⟨kv', List.mem_cons_of_mem kv hkv', hn⟩
        · intro _
          trivial
      · simp only [compileAttrs, ha, hr]
        constructor
        · intro hcontra
          exact absurd hcontra (by simp)
        · rintro ⟨kv', hkv', hn⟩
          rcases List.mem_cons.mp hkv' with heq | hmem
          · subst heq
            rw [ha] at hn
            exact absurd hn (by simp)
          · have hnone : compileAttrs rest = none := ih.mpr ⟨kv', hmem, hn⟩
            rw [hr] at hnone
            exact absurd hnone (by simp)

/-- `compileStep` fails exactly when an attribute key is unsupported or
the quantifier symbol is unrecognized. -/
theorem compileStep_eq_none (s : RawStep) :
    compileStep s = none ↔ compileAttrs s.attrs = none ∨ quantOfOp s.op = none := by
  unfold compileStep
  rcases ha : compileAttrs s.attrs with _ | a <;>
    rcases hq : quantOfOp s.op with _ | q <;> simp [ha, hq]

/-- `compilePattern` fails exactly when some step fails. -/
theorem compilePattern_eq_none :
    ∀ l : List RawStep, compilePattern l = none ↔ ∃ s ∈ l, compileStep s = none := by
  intro l
  induction l with
  | nil => simp [compilePattern]
  | cons s rest ih =>
    rcases ha : compileStep s with _ | c
    · simp only [compilePattern, ha]
      constructor
      · intro _
        exact ⟨s, List.mem_cons_self s rest, ha⟩
      · intro _
        trivial
    · rcases hr : compilePattern rest with _ | cs
      · simp only [compilePattern, ha, hr]
        constructor
        · intro _
          obtain ⟨s', hs', hn⟩ := ih.mp hr
          exact ⟨s', List.mem_cons_of_mem s hs', hn⟩
        · intro _
          trivial
      · simp only [compilePattern, ha, hr]
        constructor
        · intro hcontra
          exact absurd hcontra (by simp)
        · rintro ⟨s', hs', hn⟩
          rcases List.mem_cons.mp hs' with heq | hmem
          · subst heq
            rw [ha] at hn
            exact absurd hn (by simp)
          · have hnone : compilePattern rest = none := ih.mpr ⟨s', hmem, hn⟩
            rw [hr] at hnone
            exact absurd hnone (by simp)

/-- `compilePatterns` fails exactly when some pattern fails. -/
theorem compilePatterns_eq_none :
    ∀ l : List (List RawStep),
      compilePatterns l = none ↔ ∃ p ∈ l, compilePattern p = none := by
  intro l
  induction l with
  | nil => simp [compilePatterns]
  | cons p rest ih =>
    rcases ha : compilePattern p with _ | c
    · simp only [compilePatterns, ha]
      constructor
      · intro _
        exact ⟨p, List.mem_cons_self p rest, ha⟩
      · intro _
        trivial
    · rcases hr : compilePatterns rest with _ | cs
      · simp only [compilePatterns, ha, hr]
        constructor
        · intro _
          obtain ⟨p', hp', hn⟩ := ih.mp hr
          exact ⟨p', List.mem_cons_of_mem p hp', hn⟩
        · intro _
          trivial
      · simp only [compilePatterns, ha, hr]
        constructor
        · intro hcontra
          exact absurd hcontra (by simp)
        · rintro ⟨p', hp', hn⟩
          rcases List.mem_cons.mp hp' with heq | hmem
          · subst heq
            rw [ha] at hn
            exact absurd hn (by simp)
          · have hnone : compilePatterns rest = none := ih.mpr ⟨p', hmem, hn⟩
            rw [hr] at hnone
            exact absurd hnone (by simp)

/-- C5: `register` reports a `ConfigurationError` exactly when some step
of the supplied patterns references an unsupported attribute name or
carries a quantifier symbol outside the five recognized forms; matching
itself is a total function into a match list (absence of a match is an
empty result, never an error). -/
theorem register_error_iff_bad_step (reg : Registry) (name : String)
    (ps : List (List RawStep)) :
    isError (register reg name ps) = true ↔
      ∃ p ∈ ps, ∃ s ∈ p,
        (∃ kv ∈ s.attrs, attrOfName kv.1 = none) ∨ quantOfOp s.op = none := by
  unfold register
  rcases hc : compilePatterns ps with _ | cps
  · simp only [isError]
    constructor
    · intro _
      obtain ⟨p, hp, hpn⟩ := (compilePatterns_eq_none ps).mp hc
      obtain ⟨s, hs, hsn⟩ := (compilePattern_eq_none p).mp hpn
      rcases (compileStep_eq_none s).mp hsn with hattr | hq
      · exact ⟨p, hp, s, hs, Or.inl ((compileAttrs_eq_none s.attrs).mp hattr)⟩
      · exact ⟨p, hp, s, hs, Or.inr hq⟩
    · intro _
      trivial
  · simp only [isError]
    constructor
    · intro hcontra
      exact absurd hcontra (by simp)
    · rintro ⟨p, hp, s, hs, hbad⟩
      have hsn : compileStep s = none := (compileStep_eq_none s).mpr (by
        rcases hbad with hattr | hq
        · exact Or.inl ((compileAttrs_eq_none s.attrs).mpr hattr)
        · exact Or.inr hq)
      have hnone : compilePatterns ps = none :=
        (compilePatterns_eq_none ps).mpr
          ⟨p, hp, (compilePattern_eq_none p).mpr ⟨s, hs, hsn⟩⟩
      rw [hc] at hnone
      exact absurd hnone (by simp)

/-- C6: a `register` call that reports a `ConfigurationError` leaves the
registry exactly as it was: the returned state is the previous registry,
an error is reported, and a subsequent `match` call on that state
behaves exactly as if the failed registration never happened. -/
theorem failed_register_preserves_registry (reg : Registry) (name : String)
    (ps : List (List RawStep)) (toks : List Token)
    (h : isError (register reg name ps) = true) :
    (tryRegister reg name ps).1 = reg ∧
      ((tryRegister reg name ps).2).isSome = true ∧
      matchAll (tryRegister reg name ps).1 toks = matchAll reg toks := by
  unfold tryRegister
  rcases hr : register reg name ps with e | r
  · exact ⟨rfl, rfl, rfl⟩
  · rw [hr] at h
    exact absurd h (by simp [isError])

/-- C6 witness: registering the `OP: '%'` pattern on top of the
`VERY_HAPPY` registry fails and leaves it unchanged, so matching
`very very happy` afterwards is unaffected. -/
theorem failed_register_preserves_registry_witness :
    (tryRegister vhReg "BAD" badRaw).1 = vhReg ∧
      ((tryRegister vhReg "BAD" badRaw).2).isSome = true ∧
      matchAll (tryRegister vhReg "BAD" badRaw).1 veryVeryHappyDoc =
        matchAll vhReg veryVeryHappyDoc :=
  failed_register_preserves_registry vhReg "BAD" badRaw veryVeryHappyDoc (by decide)

end NlpSpacy
